import Mathlib

/-!
Shallow embedding of `src/main.py` (metamusic): a command-line pipeline that
fetches an album page, extracts metadata from an embedded JSON-LD block,
rewrites the cover-art URL's `WxH` token to `10000x10000`, downloads the
image and squares it.  Python strings are modelled as lists of Unicode
codepoints (`PyStr := List Nat`); the external collaborators (HTTP transport,
HTML parser, image codec) are parameters, as the spec treats them as black
boxes.  Exceptions are modelled with `Except PyErr`; logging is modelled as
an explicit list of (level, message) entries.
-/

namespace Metamusic

/-- Python strings are lists of Unicode codepoints. -/
abbrev PyStr := List Nat

/-- Convenience: the codepoints of a Lean string literal. -/
def str (s : String) : PyStr := s.toList.map Char.toNat

/-- ASCII digit, the `\d` class restricted to ASCII (Python regex on `str`
matches `\d` on more, but all inputs of interest are ASCII; `0`-`9`). -/
def isDigitN (c : Nat) : Bool := 48 ≤ c && c ≤ 57

/-- Models `c.isupper() and c.isascii()` in Python: ASCII `A`-`Z`. -/
def isUpperA (c : Nat) : Bool := 65 ≤ c && c ≤ 90

/-- Models `c.isascii() and c.islower()`: ASCII `a`-`z`. -/
def isLowerA (c : Nat) : Bool := 97 ≤ c && c ≤ 122

/-- Models `c.isascii() and c.isdigit()`: ASCII `0`-`9`. -/
def isDigitA (c : Nat) : Bool := 48 ≤ c && c ≤ 57

/-- Python `str.lower()` on an ASCII uppercase letter: codepoint + 32. -/
def lowerA (c : Nat) : Nat := c + 32

/-- Whitespace stripped by Python `str.strip()` (the Unicode whitespace
codepoints). -/
def isPySpace (c : Nat) : Bool :=
  (9 ≤ c && c ≤ 13) || (28 ≤ c && c ≤ 32) || c == 133 || c == 160 ||
  c == 5760 || (8192 ≤ c && c ≤ 8202) || c == 8232 || c == 8233 ||
  c == 8239 || c == 8287 || c == 12288

/-- Attempt to match the regex `\d+x\d+` at the head of `l` (Python `re`
semantics: the first `\d+` is greedy, and since `x` is not a digit no
backtracking can succeed with a shorter digit run, so the maximal digit run
must be followed by `x` and at least one digit).  Returns the matched text. -/
def tryMatchAt (l : PyStr) : Option PyStr :=
  match l.dropWhile isDigitN with
  | [] => none
  | x :: r2 =>
    cond (!(l.takeWhile isDigitN).isEmpty && (x == 120) &&
          !(r2.takeWhile isDigitN).isEmpty)
      (some (l.takeWhile isDigitN ++ 120 :: r2.takeWhile isDigitN))
      none

/-- Models `re.search(r'\d+x\d+', url)`: leftmost match wins; returns the matched
text (`m.group(0)`). -/
def reSearch : PyStr → Option PyStr
  | [] => none
  | c :: rest =>
    match tryMatchAt (c :: rest) with
    | some m => some m
    | none => reSearch rest

/-- Recursion core for `re.sub` with a literal pattern: replaces every
leftmost non-overlapping occurrence of `pat` in the subject.  `fuel` bounds
the recursion structurally (any `fuel ≥` subject length gives the value of
the substitution). -/
def replaceAllF (pat repl : PyStr) : Nat → PyStr → PyStr
  | _, [] => []
  | 0, s => s
  | fuel + 1, c :: rest =>
    cond (pat.isPrefixOf (c :: rest))
      (repl ++ replaceAllF pat repl fuel ((c :: rest).drop pat.length))
      (c :: replaceAllF pat repl fuel rest)

/-- Models `re.sub(pat, repl, s)` where `pat` is the text matched by `\d+x\d+`
(digits and `x` only, hence no regex metacharacters: a literal global
substitution). -/
def replaceAll (pat repl s : PyStr) : PyStr :=
  if pat.isEmpty then s else replaceAllF pat repl s.length s

/-- Number of positions of `s` at which `pat` occurs (all positions,
including overlapping ones). -/
def numOccur (pat : PyStr) : PyStr → Nat
  | [] => 0
  | c :: rest => cond (pat.isPrefixOf (c :: rest)) 1 0 + numOccur pat rest

/-! ### Declarative semantics of the regex `\d+x\d+` and the search -/

/-- A string matches the regex `\d+x\d+`: one or more digits, the letter
`x` (codepoint 120), one or more digits. -/
def isResToken (m : PyStr) : Prop :=
  ∃ d1 d2, d1 ≠ [] ∧ d2 ≠ [] ∧ (∀ c ∈ d1, isDigitN c = true) ∧
    (∀ c ∈ d2, isDigitN c = true) ∧ m = d1 ++ 120 :: d2

/-- The URL contains a substring matching `\d+x\d+`. -/
def containsResToken (u : PyStr) : Prop :=
  ∃ p m s, isResToken m ∧ u = p ++ m ++ s

/-- Log levels of the Python `logging` calls used by the program. -/
inductive LogLevel where
  | info
  | warning
  | error
deriving DecidableEq

/-- The formatted log messages emitted by `src/main.py`, abstracted as a
message tag carrying the `%s`-style payloads. -/
inductive LogMsg where
  /-- Message "Failed to download image from URL: %s" (`download_jpeg_image`). -/
  | failedImageDownload (url : Option PyStr)
  /-- Message "No match found in URL: %s" (`get_high_resolution_album_cover_url`). -/
  | noMatchInUrl (url : PyStr)
  /-- Message "Failed to extract the image URL from the provided URL: %s" (`get_html_soup`). -/
  | failedExtractImageUrl (url : PyStr)
  /-- Message "Downloading cover image from URL: %s" (`download_cover_art`). -/
  | downloadingCover (url : Option PyStr)
  /-- Message "Extracted Album metadata is:\n%s" (`main`). -/
  | extractedAlbumMetadata
  /-- Message "Cover image dimensions: %sx%s" (`square_cover_image`). -/
  | coverDimensions (w h : Nat)
  /-- Message "Cover size: %s" (`square_cover_image`). -/
  | coverSize (s : PyStr)
  /-- Message "Image resized to %sx%s" (`square_cover_image`). -/
  | imageResized (side : Nat)

/-- One emitted log record: a level and a message. -/
structure LogEntry where
  level : LogLevel
  msg : LogMsg

/-- Models `get_high_resolution_album_cover_url` (src/main.py:64-76): searches for
`\d+x\d+`; if absent logs a warning and returns `None`; otherwise performs
`re.sub(m.group(0), "10000x10000", url)` and returns the rewritten URL. -/
def get_high_resolution_album_cover_url (url : PyStr) :
    Option PyStr × List LogEntry :=
  match reSearch url with
  | none => (none, [⟨.warning, .noMatchInUrl url⟩])
  | some m => (some (replaceAll m (str "10000x10000") url), [])

/-- Python `str.strip()`: remove leading and trailing whitespace. -/
def pyStrip (s : PyStr) : PyStr :=
  ((s.dropWhile isPySpace).reverse.dropWhile isPySpace).reverse

/-- The underscore character, as stripped by `rstrip("_")`. -/
def isUnderscore (c : Nat) : Bool := c = 95

/-- A character that `to_snake_case` can emit: ASCII lowercase, ASCII digit,
or underscore. -/
def isSnakeChar (c : Nat) : Bool := isLowerA c || isDigitA c || c == 95

/-- The accumulation loop of `to_snake_case` (src/main.py:130-137).  The
Python code appends to the end of `sb`; here the accumulator `rsb` holds
`sb` reversed (so `sb += ch` becomes `ch :: rsb` and `sb[-1]` becomes the
head of `rsb`), which is the same string built back to front. -/
def snakeLoop : List Nat → PyStr → List Nat
  | rsb, [] => rsb
  | rsb, c :: cs =>
    if isUpperA c then snakeLoop (lowerA c :: rsb) cs
    else if isLowerA c || isDigitA c then snakeLoop (c :: rsb) cs
    else
      match rsb with
      | [] => snakeLoop rsb cs
      | d :: _ => if d = 95 then snakeLoop rsb cs else snakeLoop (95 :: rsb) cs

/-- Models `to_snake_case` (src/main.py:129-139): strip whitespace, lowercase and
keep ASCII letters/digits, collapse every other character to a single `_`
(never leading, never doubled), then `rstrip("_")`.  The final `rstrip` on
`sb` is `dropWhile` on the reversed accumulator. -/
def to_snake_case (s : PyStr) : PyStr :=
  ((snakeLoop [] (pyStrip s)).dropWhile isUnderscore).reverse

/-- Decimal rendering of a natural number (the digits of `str(n)` /
`f"{n:...}"` formatting), via a structural fuel (`n + 1` digits always
suffice). -/
def natToDecF : Nat → Nat → List Nat
  | 0, _ => []
  | fuel + 1, n => if n < 10 then [48 + n] else natToDecF fuel (n / 10) ++ [48 + n % 10]

/-- Models `str(n)` for a natural number. -/
def natToDec (n : Nat) : PyStr := natToDecF (n + 1) n

/-- Models `format_cover_size` (src/main.py:114-126).  The Python code formats the
float `number / 1000` with `:.0f` (multiples of 1000) or `:.1f` (multiples
of 100); for such multiples below 2^49 the nearest double renders exactly as
the true decimal, so the float formatting is modelled by exact decimal
rendering: `n/1000` for the `Nk` form and integer-part `.` tenths-digit for
the `N.Nk` form. -/
def format_cover_size (number : Nat) : PyStr :=
  if number % 1000 = 0 then natToDec (number / 1000) ++ [107]
  else if number % 100 = 0 then
    natToDec (number / 1000) ++ 46 :: natToDec (number % 1000 / 100) ++ [107]
  else natToDec number

/-- Python exception classes raised by the modelled code paths. -/
inductive PyErr where
  /-- Models `AttributeError` (e.g. `None.find`, `None.contents`, `int.strip`). -/
  | attributeError
  /-- Models `TypeError` (e.g. `None['srcset']`, subscripting a non-container). -/
  | typeError
  /-- Models `KeyError` (missing dict key / missing tag attribute). -/
  | keyError
  /-- Models `IndexError` (sequence index out of range). -/
  | indexError
  /-- Models `ValueError` / `json.JSONDecodeError` (malformed JSON). -/
  | valueError
  /-- Models `requests` connection-level exception (network failure). -/
  | connectionError
  /-- Models `requests.exceptions.MissingSchema` (e.g. `requests.get(None)`). -/
  | invalidUrl
  /-- Models `FileNotFoundError` (opening a file that was never written). -/
  | fileNotFoundError
deriving DecidableEq

/-- JSON values, as decoded by `json.loads` (numbers abstracted as integers;
object fields in document order). -/
inductive Json where
  | null
  | num (n : Int)
  | jstr (s : PyStr)
  | arr (elems : List Json)
  | obj (fields : List (PyStr × Json))

/-- Key lookup in the field list of a JSON object (Python dict built by
`json.loads`: last binding of a duplicated key wins, but keys are unique in
practice; first match returned). -/
def lookupField : List (PyStr × Json) → PyStr → Option Json
  | [], _ => none
  | (k, v) :: rest, key => if k = key then some v else lookupField rest key

/-- Python subscript `j["key"]` on a decoded JSON value: dict lookup
(`KeyError` if absent), `TypeError` on any non-dict. -/
def subscrKey (j : Json) (key : PyStr) : Except PyErr Json :=
  match j with
  | .obj fields =>
    match lookupField fields key with
    | some v => .ok v
    | none => .error .keyError
  | _ => .error .typeError

/-- Python subscript `j[i]` for a natural index: list indexing (`IndexError`
out of range), string indexing (yields a 1-character string), `KeyError` on
a dict without that key (JSON object keys are strings), `TypeError` else. -/
def subscrIdx (j : Json) (i : Nat) : Except PyErr Json :=
  match j with
  | .arr elems =>
    match elems.get? i with
    | some v => .ok v
    | none => .error .indexError
  | .jstr s =>
    match s.get? i with
    | some c => .ok (.jstr [c])
    | none => .error .indexError
  | .obj _ => .error .keyError
  | _ => .error .typeError

/-- Python iteration (`enumerate(j)`): lists yield elements, strings yield
1-character strings, dicts yield keys, anything else raises `TypeError`. -/
def iterElems (j : Json) : Except PyErr (List Json) :=
  match j with
  | .arr elems => .ok elems
  | .jstr s => .ok (s.map (fun c => .jstr [c]))
  | .obj fields => .ok (fields.map (fun f => .jstr f.1))
  | _ => .error .typeError

/-- Models `TrackInfo` dataclass (src/main.py:15-21).  `track_name` is whatever the
JSON held (Python dataclasses do not enforce the `str` annotation). -/
structure TrackInfo where
  track_number : Nat
  track_name : Json

/-- Models `AlbumInfo` dataclass (src/main.py:24-49). -/
structure AlbumInfo where
  artist : Json
  album : Json
  date_published : Json
  genre : Json
  tracks : List TrackInfo

/-- Models `AlbumInfo.number_of_tracks` property (src/main.py:32-34). -/
def AlbumInfo.number_of_tracks (a : AlbumInfo) : Nat := a.tracks.length

/-- The response of one HTTP GET: status code and raw body
(`response.text` / `response.content`, both modelled as the byte string). -/
structure HttpResponse where
  status : Nat
  body : PyStr

/-- The HTTP transport, a black box per the spec: maps a URL to a response,
or to `none` when the request itself fails (connection error / timeout,
which `requests.get` raises as an exception). -/
abbrev Http := PyStr → Option HttpResponse

/-- Models `requests.get(url)`: `url` is `None` when the caller passed a missing
URL (Python then raises `MissingSchema`); a transport-level failure raises a
`requests` exception. -/
def requests_get (http : Http) (url : Option PyStr) : Except PyErr HttpResponse :=
  match url with
  | none => .error .invalidUrl
  | some u =>
    match http u with
    | none => .error .connectionError
    | some r => .ok r

/-- The filesystem: a map from paths to file contents. -/
def FS := PyStr → Option PyStr

/-- Models `open(path, 'wb')` + `write(bytes)`: (over)write one file, truncating
any previous contents. -/
def FS.update (fs : FS) (path bytes : PyStr) : FS :=
  fun p => if p = path then some bytes else fs p

/-- Models `download_jpeg_image` (src/main.py:52-61): GET the URL; on a non-200
status log an error and return early (no write); on 200 write the response
bytes verbatim to `path`. -/
def download_jpeg_image (http : Http) (url : Option PyStr) (path : PyStr)
    (fs : FS) : Except PyErr FS × List LogEntry :=
  match requests_get http url with
  | .error e => (.error e, [])
  | .ok response =>
    if response.status ≠ 200 then
      (.ok fs, [⟨.error, .failedImageDownload url⟩])
    else
      (.ok (fs.update path response.body), [])

/-- The `<source type="image/jpeg">` element found inside the artwork div:
its `srcset` attribute (absent attribute raises `KeyError` on subscript). -/
structure JpegSource where
  srcset : Option PyStr

/-- The `<div class="artwork-component">` element: the JPEG `<source>`
inside it, if any (`div.find` returns `None` when absent). -/
structure ArtworkDiv where
  jpegSource : Option JpegSource

/-- The parsed page (`BeautifulSoup` result), reduced to the two queries the
program makes of it: the `schema:music-album` script block (outer `none` =
script not found, inner `none` = contents are not valid JSON) and the
artwork div. -/
structure Soup where
  schemaAlbumJson : Option (Option Json)
  artworkDiv : Option ArtworkDiv

/-- Models `get_html_soup` (src/main.py:79-90): GET the page; on a non-200 status
log an error and return `None` (bare `return`); otherwise parse the HTML
(the parser `htmlParse` is a black box). -/
def get_html_soup (http : Http) (htmlParse : PyStr → Soup) (url : PyStr) :
    Except PyErr (Option Soup) × List LogEntry :=
  match requests_get http (some url) with
  | .error e => (.error e, [])
  | .ok response =>
    if response.status ≠ 200 then
      (.ok none, [⟨.error, .failedExtractImageUrl url⟩])
    else
      (.ok (some (htmlParse response.body)), [])

/-- Python `s.split(sep)` with an explicit one-character separator: splits
at every occurrence, keeping empty fields; never returns an empty list. -/
def pySplit (sep : Nat) : PyStr → List PyStr
  | [] => [[]]
  | c :: rest =>
    match pySplit sep rest with
    | [] => [[]]
    | h :: t => if c = sep then [] :: h :: t else (c :: h) :: t

/-- The URL `download_cover_art` extracts from a `srcset` attribute value:
last comma-separated candidate (`split(',')[-1]`), then the text before the
first space (`split(" ")[0]`).  Both `split` results are always nonempty, so
the defaults of `getLastD`/`headD` are never used. -/
def extracted_image_url (srcset : PyStr) : PyStr :=
  ((pySplit 32 ((pySplit 44 srcset).getLastD [])).headD [])

/-- Models `download_cover_art` (src/main.py:93-111): find the artwork div
(`None.find` raises `AttributeError` when the soup is `None`; a missing div
likewise), the JPEG source (`None['srcset']` raises `TypeError` when
absent; a missing attribute raises `KeyError`), extract the candidate URL,
upgrade its resolution, log, and download. -/
def download_cover_art (http : Http) (soup : Option Soup) (path : PyStr)
    (fs : FS) : Except PyErr FS × List LogEntry :=
  match soup with
  | none => (.error .attributeError, [])
  | some s =>
    match s.artworkDiv with
    | none => (.error .attributeError, [])
    | some div =>
      match div.jpegSource with
      | none => (.error .typeError, [])
      | some src =>
        match src.srcset with
        | none => (.error .keyError, [])
        | some srcset =>
          let image_url := extracted_image_url srcset
          let hq := get_high_resolution_album_cover_url image_url
          let dl := download_jpeg_image http hq.fst path fs
          (dl.fst, hq.snd ++ ⟨.info, .downloadingCover hq.fst⟩ :: dl.snd)

/-- The track list comprehension of `parse_album_info` (src/main.py:150-153):
`TrackInfo(track_number=i+1, track_name=track["name"])` for `i, track` in
`enumerate(data["tracks"])`; the first failing `track["name"]` raises. -/
def buildTracks : Nat → List Json → Except PyErr (List TrackInfo)
  | _, [] => .ok []
  | i, t :: rest =>
    match subscrKey t (str "name") with
    | .error e => .error e
    | .ok nm =>
      match buildTracks (i + 1) rest with
      | .error e => .error e
      | .ok l => .ok (⟨i + 1, nm⟩ :: l)

/-- Models `parse_album_info` (src/main.py:142-163): read the
`schema:music-album` script (a `None` soup or missing script raises
`AttributeError`, malformed JSON raises `ValueError`), build the numbered
track list, then assemble the `AlbumInfo` from `byArtist.name`, `name`,
`datePublished` and `genre[0]`. -/
def parse_album_info (soup : Option Soup) : Except PyErr AlbumInfo :=
  match soup with
  | none => .error .attributeError
  | some s =>
    match s.schemaAlbumJson with
    | none => .error .attributeError
    | some none => .error .valueError
    | some (some data) =>
      match subscrKey data (str "tracks") with
      | .error e => .error e
      | .ok tracksJson =>
        match iterElems tracksJson with
        | .error e => .error e
        | .ok tracks =>
          match buildTracks 0 tracks with
          | .error e => .error e
          | .ok track_infos =>
            match subscrKey data (str "byArtist") with
            | .error e => .error e
            | .ok byArtist =>
              match subscrKey byArtist (str "name") with
              | .error e => .error e
              | .ok artist =>
                match subscrKey data (str "name") with
                | .error e => .error e
                | .ok album =>
                  match subscrKey data (str "datePublished") with
                  | .error e => .error e
                  | .ok datePublished =>
                    match subscrKey data (str "genre") with
                    | .error e => .error e
                    | .ok genreList =>
                      match subscrIdx genreList 0 with
                      | .error e => .error e
                      | .ok genre =>
                        .ok ⟨artist, album, datePublished, genre, track_infos⟩

/-- A decoded image, reduced to its dimensions (`img.size`); pixel data
lives in the codec black box. -/
structure PILImage where
  width : Nat
  height : Nat
deriving DecidableEq

/-- Models `square_cover_image` (src/main.py:166-189): open the file (decode is
the PIL black box; a missing file raises), log the dimensions and the
formatted size of `side = max(width, height)`, return untouched if already
square, else resize to `side × side` and save over the same path (`encode`
is the codec black box). -/
def square_cover_image (decode : PyStr → Except PyErr PILImage)
    (encode : PILImage → PyStr) (path : PyStr) (fs : FS) :
    Except PyErr FS × List LogEntry :=
  match fs path with
  | none => (.error .fileNotFoundError, [])
  | some bytes =>
    match decode bytes with
    | .error e => (.error e, [])
    | .ok img =>
      let side_size := max img.width img.height
      let logs : List LogEntry :=
        [⟨.info, .coverDimensions img.width img.height⟩,
         ⟨.info, .coverSize (format_cover_size side_size)⟩]
      if img.width = img.height then (.ok fs, logs)
      else
        (.ok (fs.update path (encode ⟨side_size, side_size⟩)),
          logs ++ [⟨.info, .imageResized side_size⟩])

/-- Python attribute call `s.strip()` inside `to_snake_case` requires a
`str`; any other JSON value raises `AttributeError`. -/
def asPyStr (j : Json) : Except PyErr PyStr :=
  match j with
  | .jstr s => .ok s
  | _ => .error .attributeError

/-- Models `main` (src/main.py:202-224): fetch the page, parse the album info,
derive the cover path from the sanitized artist/album names, download the
cover art, square it.  Any uncaught exception aborts the run (`Except.error`);
logs emitted before the abort are kept. -/
def mainModel (http : Http) (htmlParse : PyStr → Soup)
    (decode : PyStr → Except PyErr PILImage) (encode : PILImage → PyStr)
    (inputUrl : PyStr) (fs : FS) : Except PyErr FS × List LogEntry :=
  let fetched := get_html_soup http htmlParse inputUrl
  match fetched.fst with
  | .error e => (.error e, fetched.snd)
  | .ok soup =>
    match parse_album_info soup with
    | .error e => (.error e, fetched.snd)
    | .ok album_info =>
      let logs2 := fetched.snd ++ [⟨.info, .extractedAlbumMetadata⟩]
      match asPyStr album_info.artist with
      | .error e => (.error e, logs2)
      | .ok artistS =>
        match asPyStr album_info.album with
        | .error e => (.error e, logs2)
        | .ok albumS =>
          let cover_path :=
            str "album_cover_" ++ to_snake_case artistS ++ [95] ++
              to_snake_case albumS ++ str ".jpeg"
          let dl := download_cover_art http soup cover_path fs
          match dl.fst with
          | .error e => (.error e, logs2 ++ dl.snd)
          | .ok fs2 =>
            let sq := square_cover_image decode encode cover_path fs2
            (sq.fst, logs2 ++ dl.snd ++ sq.snd)

/-- A concrete three-track list as decoded from a structured-data block,
used to exercise the extractor. -/
def testTracks : List Json :=
  [.obj [(str "name", .jstr (str "Track One"))],
   .obj [(str "name", .jstr (str "Track Two"))],
   .obj [(str "name", .jstr (str "Track Three"))]]

/-- A concrete `schema:music-album` block: artist "Test Artist", album
"Test Album", three tracks. -/
def testAlbumData : Json :=
  .obj [
    (str "byArtist", .obj [(str "name", .jstr (str "Test Artist"))]),
    (str "name", .jstr (str "Test Album")),
    (str "datePublished", .jstr (str "2020-01-01")),
    (str "genre", .arr [.jstr (str "Rock")]),
    (str "tracks", .arr testTracks)]

/-- A parsed page holding the concrete structured-data block. -/
def testSoup : Soup := ⟨some (some testAlbumData), none⟩

/-! ### Lemmas about the literal substitution `replaceAll` -/

lemma prefixOf_append (l x : PyStr) : l.isPrefixOf (l ++ x) = true := by
  induction l with
  | nil => simp
  | cons a t ih => simp [List.isPrefixOf, ih]

lemma prefixOf_iff (p s : PyStr) : p.isPrefixOf s = true ↔ ∃ t, s = p ++ t := by
  induction p generalizing s with
  | nil => simp
  | cons a t ih =>
    cases s with
    | nil => simp [List.isPrefixOf]
    | cons b rest =>
      simp only [List.isPrefixOf, Bool.and_eq_true, beq_iff_eq, ih]
      constructor
      · rintro ⟨rfl, u, rfl⟩; exact ⟨u, rfl⟩
      · rintro ⟨u, hu⟩
        cases hu
        exact ⟨rfl, u, rfl⟩

lemma numOccur_cons_tt {pat : PyStr} {c : Nat} {rest : PyStr}
    (h : pat.isPrefixOf (c :: rest) = true) :
    numOccur pat (c :: rest) = 1 + numOccur pat rest := by
  have e : numOccur pat (c :: rest)
      = cond (pat.isPrefixOf (c :: rest)) 1 0 + numOccur pat rest := rfl
  rw [e, h]
  rfl

lemma numOccur_cons_ff {pat : PyStr} {c : Nat} {rest : PyStr}
    (h : pat.isPrefixOf (c :: rest) = false) :
    numOccur pat (c :: rest) = numOccur pat rest := by
  have e : numOccur pat (c :: rest)
      = cond (pat.isPrefixOf (c :: rest)) 1 0 + numOccur pat rest := rfl
  rw [e, h]
  simp

lemma numOccur_le_append (pat t s : PyStr) :
    numOccur pat s ≤ numOccur pat (t ++ s) := by
  induction t with
  | nil => exact Nat.le_refl _
  | cons c t ih =>
    have e : numOccur pat ((c :: t) ++ s)
        = cond (pat.isPrefixOf (c :: (t ++ s))) 1 0 + numOccur pat (t ++ s) := rfl
    calc numOccur pat s ≤ numOccur pat (t ++ s) := ih
    _ ≤ cond (pat.isPrefixOf (c :: (t ++ s))) 1 0 + numOccur pat (t ++ s) :=
        Nat.le_add_left _ _
    _ = numOccur pat ((c :: t) ++ s) := e.symm

lemma numOccur_pos (pat x y : PyStr) (hpat : pat ≠ []) :
    1 ≤ numOccur pat (x ++ (pat ++ y)) := by
  refine Nat.le_trans ?_ (numOccur_le_append pat x (pat ++ y))
  obtain ⟨a, t, rfl⟩ := List.exists_cons_of_ne_nil hpat
  have hp : (a :: t).isPrefixOf ((a :: t) ++ y) = true := prefixOf_append _ _
  have e : numOccur (a :: t) ((a :: t) ++ y) = 1 + numOccur (a :: t) (t ++ y) :=
    numOccur_cons_tt hp
  omega

lemma replaceAllF_cons_tt {pat repl : PyStr} {fuel : Nat} {c : Nat} {rest : PyStr}
    (h : pat.isPrefixOf (c :: rest) = true) :
    replaceAllF pat repl (fuel + 1) (c :: rest)
      = repl ++ replaceAllF pat repl fuel ((c :: rest).drop pat.length) := by
  have e : replaceAllF pat repl (fuel + 1) (c :: rest)
      = cond (pat.isPrefixOf (c :: rest))
          (repl ++ replaceAllF pat repl fuel ((c :: rest).drop pat.length))
          (c :: replaceAllF pat repl fuel rest) := rfl
  rw [e, h]
  rfl

lemma replaceAllF_cons_ff {pat repl : PyStr} {fuel : Nat} {c : Nat} {rest : PyStr}
    (h : pat.isPrefixOf (c :: rest) = false) :
    replaceAllF pat repl (fuel + 1) (c :: rest)
      = c :: replaceAllF pat repl fuel rest := by
  have e : replaceAllF pat repl (fuel + 1) (c :: rest)
      = cond (pat.isPrefixOf (c :: rest))
          (repl ++ replaceAllF pat repl fuel ((c :: rest).drop pat.length))
          (c :: replaceAllF pat repl fuel rest) := rfl
  rw [e, h]
  rfl

lemma replaceAllF_no_occ (pat repl : PyStr) :
    ∀ fuel s, s.length ≤ fuel → numOccur pat s = 0 →
      replaceAllF pat repl fuel s = s := by
  intro fuel
  induction fuel with
  | zero =>
    intro s hs _
    cases s with
    | nil => rfl
    | cons c rest => simp at hs
  | succ fuel ih =>
    intro s hs hocc
    cases s with
    | nil => rfl
    | cons c rest =>
      cases hp : pat.isPrefixOf (c :: rest) with
      | true => rw [numOccur_cons_tt hp] at hocc; omega
      | false =>
        rw [numOccur_cons_ff hp] at hocc
        rw [replaceAllF_cons_ff hp]
        have hr : rest.length ≤ fuel := by
          simp only [List.length_cons] at hs; omega
        rw [ih rest hr hocc]

lemma replaceAllF_single (pat repl : PyStr) (hpat : pat ≠ []) :
    ∀ fuel p s, (p ++ pat ++ s).length ≤ fuel →
      numOccur pat (p ++ pat ++ s) = 1 →
      replaceAllF pat repl fuel (p ++ pat ++ s) = p ++ repl ++ s := by
  have hplen : 0 < pat.length := List.length_pos.mpr hpat
  intro fuel
  induction fuel with
  | zero =>
    intro p s hlen _
    exfalso
    simp only [List.length_append] at hlen
    omega
  | succ fuel ih =>
    intro p s hlen hocc
    cases p with
    | nil =>
      obtain ⟨a, t, hp⟩ := List.exists_cons_of_ne_nil hpat
      have hshape : ([] : PyStr) ++ pat ++ s = a :: (t ++ s) := by
        subst hp; simp
      rw [hshape] at hocc hlen ⊢
      have hpre : pat.isPrefixOf (a :: (t ++ s)) = true := by
        have h2 := prefixOf_append pat s
        have h3 : pat ++ s = a :: (t ++ s) := by subst hp; simp
        rwa [h3] at h2
      rw [replaceAllF_cons_tt hpre]
      have hdrop : (a :: (t ++ s)).drop pat.length = s := by
        have h2 := List.drop_left pat s
        have h3 : pat ++ s = a :: (t ++ s) := by subst hp; simp
        rwa [h3] at h2
      rw [hdrop]
      have hocc2 : numOccur pat (a :: (t ++ s)) = 1 + numOccur pat (t ++ s) :=
        numOccur_cons_tt hpre
      have hle : numOccur pat s ≤ numOccur pat (t ++ s) :=
        numOccur_le_append pat t s
      have hs0 : numOccur pat s = 0 := by omega
      have hslen : s.length ≤ fuel := by
        simp only [List.length_cons, List.length_append] at hlen
        omega
      rw [replaceAllF_no_occ pat repl fuel s hslen hs0]
      simp
    | cons c p2 =>
      have hshape : (c :: p2) ++ pat ++ s = c :: (p2 ++ pat ++ s) := by simp
      rw [hshape] at hocc hlen ⊢
      cases hp : pat.isPrefixOf (c :: (p2 ++ pat ++ s)) with
      | true =>
        exfalso
        rw [numOccur_cons_tt hp] at hocc
        have h2 : 1 ≤ numOccur pat (p2 ++ (pat ++ s)) :=
          numOccur_pos pat p2 s hpat
        rw [← List.append_assoc] at h2
        omega
      | false =>
        rw [numOccur_cons_ff hp] at hocc
        rw [replaceAllF_cons_ff hp]
        have hlen2 : (p2 ++ pat ++ s).length ≤ fuel := by
          simp only [List.length_cons] at hlen; omega
        rw [ih p2 s hlen2 hocc]
        simp

lemma replaceAll_single (pat repl p s : PyStr) (hpat : pat ≠ [])
    (h : numOccur pat (p ++ pat ++ s) = 1) :
    replaceAll pat repl (p ++ pat ++ s) = p ++ repl ++ s := by
  have hne : pat.isEmpty = false := by
    cases pat with
    | nil => exact absurd rfl hpat
    | cons a t => rfl
  rw [replaceAll, hne]
  simp only [Bool.false_eq_true, if_false]
  exact replaceAllF_single pat repl hpat _ p s (Nat.le_refl _) h

lemma isEmpty_ff_iff (l : PyStr) : l.isEmpty = false ↔ l ≠ [] := by
  cases l <;> simp

lemma takeWhile_digits_append (d : PyStr) (x : Nat) (t : PyStr)
    (hd : ∀ c ∈ d, isDigitN c = true) (hx : isDigitN x = false) :
    (d ++ x :: t).takeWhile isDigitN = d ∧
    (d ++ x :: t).dropWhile isDigitN = x :: t := by
  induction d with
  | nil =>
    have hx2 : ¬ isDigitN x = true := by simp [hx]
    constructor
    · simpa using @List.takeWhile_cons_of_neg Nat isDigitN x t hx2
    · simpa using @List.dropWhile_cons_of_neg Nat isDigitN x t hx2
  | cons a dt ih =>
    have ha : isDigitN a = true := hd a (List.mem_cons_self a dt)
    have ih2 := ih (fun c hc => hd c (List.mem_cons_of_mem a hc))
    constructor
    · have h3 := @List.takeWhile_cons_of_pos Nat isDigitN a (dt ++ x :: t) ha
      simp only [List.cons_append, h3, ih2.1]
    · have h3 := @List.dropWhile_cons_of_pos Nat isDigitN a (dt ++ x :: t) ha
      simp only [List.cons_append, h3, ih2.2]

lemma tryMatchAt_nil (l : PyStr) (h : l.dropWhile isDigitN = []) :
    tryMatchAt l = none := by
  unfold tryMatchAt
  rw [h]

lemma tryMatchAt_cons (l : PyStr) (x : Nat) (r2 : PyStr)
    (h : l.dropWhile isDigitN = x :: r2) :
    tryMatchAt l =
      cond (!(l.takeWhile isDigitN).isEmpty && (x == 120) &&
            !(r2.takeWhile isDigitN).isEmpty)
        (some (l.takeWhile isDigitN ++ 120 :: r2.takeWhile isDigitN))
        none := by
  unfold tryMatchAt
  rw [h]

lemma tryMatchAt_sound (l m : PyStr) (h : tryMatchAt l = some m) :
    isResToken m ∧ ∃ s, l = m ++ s := by
  cases hdw : l.dropWhile isDigitN with
  | nil => rw [tryMatchAt_nil l hdw] at h; cases h
  | cons x r2 =>
    rw [tryMatchAt_cons l x r2 hdw] at h
    cases hc : (!(l.takeWhile isDigitN).isEmpty && (x == 120) &&
          !(r2.takeWhile isDigitN).isEmpty) with
    | false => rw [hc] at h; cases h
    | true =>
      rw [hc] at h
      have h3 : l.takeWhile isDigitN ++ 120 :: r2.takeWhile isDigitN = m :=
        Option.some.inj h
      subst h3
      rw [Bool.and_eq_true, Bool.and_eq_true] at hc
      obtain ⟨⟨ha, hb⟩, hcc⟩ := hc
      have hne1 : (l.takeWhile isDigitN).isEmpty = false := by
        cases hE : (l.takeWhile isDigitN).isEmpty
        · rfl
        · rw [hE] at ha; cases ha
      have hne2 : (r2.takeWhile isDigitN).isEmpty = false := by
        cases hE : (r2.takeWhile isDigitN).isEmpty
        · rfl
        · rw [hE] at hcc; cases hcc
      have hx : x = 120 := by simpa using hb
      refine ⟨⟨l.takeWhile isDigitN, r2.takeWhile isDigitN,
        (isEmpty_ff_iff _).mp hne1, (isEmpty_ff_iff _).mp hne2,
        fun c hmem => List.mem_takeWhile_imp hmem,
        fun c hmem => List.mem_takeWhile_imp hmem, rfl⟩,
        r2.dropWhile isDigitN, ?_⟩
      calc l = l.takeWhile isDigitN ++ l.dropWhile isDigitN :=
            (List.takeWhile_append_dropWhile isDigitN l).symm
        _ = l.takeWhile isDigitN ++ (x :: r2) := by rw [hdw]
        _ = l.takeWhile isDigitN ++ (120 :: r2) := by rw [hx]
        _ = l.takeWhile isDigitN ++
            (120 :: (r2.takeWhile isDigitN ++ r2.dropWhile isDigitN)) := by
          rw [List.takeWhile_append_dropWhile]
        _ = (l.takeWhile isDigitN ++ 120 :: r2.takeWhile isDigitN) ++
            r2.dropWhile isDigitN := by simp

lemma tryMatchAt_complete (m s : PyStr) (h : isResToken m) :
    (tryMatchAt (m ++ s)).isSome = true := by
  obtain ⟨d1, d2, h1, h2, hd1, hd2, rfl⟩ := h
  have hx : isDigitN 120 = false := rfl
  have harr : (d1 ++ 120 :: d2) ++ s = d1 ++ 120 :: (d2 ++ s) := by simp
  rw [harr]
  have hsp := takeWhile_digits_append d1 120 (d2 ++ s) hd1 hx
  rw [tryMatchAt_cons (d1 ++ 120 :: (d2 ++ s)) 120 (d2 ++ s) hsp.2]
  rw [hsp.1]
  have hne1 : d1.isEmpty = false := (isEmpty_ff_iff d1).mpr h1
  obtain ⟨e, t2, rfl⟩ := List.exists_cons_of_ne_nil h2
  have he : isDigitN e = true := hd2 e (List.mem_cons_self e t2)
  have htw : ((e :: t2) ++ s).takeWhile isDigitN
      = e :: (t2 ++ s).takeWhile isDigitN := by
    simpa using @List.takeWhile_cons_of_pos Nat isDigitN e (t2 ++ s) he
  rw [htw, hne1]
  rfl

lemma reSearch_cons_some (c : Nat) (rest m : PyStr)
    (h : tryMatchAt (c :: rest) = some m) : reSearch (c :: rest) = some m := by
  simp only [reSearch, h]

lemma reSearch_cons_none (c : Nat) (rest : PyStr)
    (h : tryMatchAt (c :: rest) = none) : reSearch (c :: rest) = reSearch rest := by
  simp only [reSearch, h]

lemma reSearch_sound (u m : PyStr) (h : reSearch u = some m) :
    isResToken m ∧ ∃ p s, u = p ++ m ++ s := by
  induction u with
  | nil => cases h
  | cons c rest ih =>
    cases htm : tryMatchAt (c :: rest) with
    | some m2 =>
      rw [reSearch_cons_some c rest m2 htm] at h
      cases h
      obtain ⟨htok, s, hs⟩ := tryMatchAt_sound _ _ htm
      exact ⟨htok, [], s, by simpa using hs⟩
    | none =>
      rw [reSearch_cons_none c rest htm] at h
      obtain ⟨htok, p, s, hps⟩ := ih h
      exact ⟨htok, c :: p, s, by simp [hps]⟩

lemma reSearch_complete (p m s : PyStr) (h : isResToken m) :
    (reSearch (p ++ m ++ s)).isSome = true := by
  induction p with
  | nil =>
    have hmn : m ≠ [] := by
      obtain ⟨d1, d2, h1, _, _, _, hm⟩ := h
      obtain ⟨a, t, ha⟩ := List.exists_cons_of_ne_nil h1
      subst ha hm
      simp
    obtain ⟨a, t, ha⟩ := List.exists_cons_of_ne_nil hmn
    have hshape : ([] : PyStr) ++ m ++ s = a :: (t ++ s) := by subst ha; simp
    rw [hshape]
    have hts := tryMatchAt_complete m s h
    rw [show m ++ s = a :: (t ++ s) by subst ha; simp] at hts
    obtain ⟨m2, hm2⟩ := Option.isSome_iff_exists.mp hts
    rw [reSearch_cons_some a (t ++ s) m2 hm2]
    rfl
  | cons c p' ih =>
    have hshape : (c :: p') ++ m ++ s = c :: (p' ++ m ++ s) := by simp
    rw [hshape]
    cases htm : tryMatchAt (c :: (p' ++ m ++ s)) with
    | some m2 => rw [reSearch_cons_some _ _ _ htm]; rfl
    | none => rw [reSearch_cons_none _ _ htm]; exact ih

lemma reSearch_some_ne_nil (u m : PyStr) (h : reSearch u = some m) : m ≠ [] := by
  obtain ⟨⟨d1, d2, h1, _, _, _, hm⟩, _⟩ := reSearch_sound u m h
  obtain ⟨a, t, ha⟩ := List.exists_cons_of_ne_nil h1
  subst ha hm
  simp

/-! ### Lemmas about the sanitizer `to_snake_case` -/

lemma isSnakeChar_iff (c : Nat) :
    isSnakeChar c = true ↔ (97 ≤ c ∧ c ≤ 122) ∨ (48 ≤ c ∧ c ≤ 57) ∨ c = 95 := by
  simp only [isSnakeChar, isLowerA, isDigitA, Bool.or_eq_true, Bool.and_eq_true,
    decide_eq_true_eq, beq_iff_eq]
  tauto

lemma isUpperA_iff (c : Nat) : isUpperA c = true ↔ 65 ≤ c ∧ c ≤ 90 := by
  simp [isUpperA]

lemma keepChar_iff (c : Nat) :
    (isLowerA c || isDigitA c) = true ↔ (97 ≤ c ∧ c ≤ 122) ∨ (48 ≤ c ∧ c ≤ 57) := by
  simp [isLowerA, isDigitA]

lemma isPySpace_false_of_snake {c : Nat} (h : isSnakeChar c = true) :
    isPySpace c = false := by
  rw [isSnakeChar_iff] at h
  cases hE : isPySpace c
  · rfl
  · exfalso
    have h2 : isPySpace c = true := hE
    simp only [isPySpace, Bool.or_eq_true, Bool.and_eq_true, decide_eq_true_eq,
      beq_iff_eq] at h2
    omega

lemma snakeLoop_upper {rsb : PyStr} {c : Nat} {cs : PyStr}
    (h : isUpperA c = true) :
    snakeLoop rsb (c :: cs) = snakeLoop (lowerA c :: rsb) cs := by
  have e : snakeLoop rsb (c :: cs)
      = if isUpperA c then snakeLoop (lowerA c :: rsb) cs
        else if isLowerA c || isDigitA c then snakeLoop (c :: rsb) cs
        else match rsb with
          | [] => snakeLoop rsb cs
          | d :: _ =>
            if d = 95 then snakeLoop rsb cs else snakeLoop (95 :: rsb) cs := rfl
  rw [e, if_pos h]

lemma snakeLoop_keep {rsb : PyStr} {c : Nat} {cs : PyStr}
    (hu : isUpperA c = false) (hk : (isLowerA c || isDigitA c) = true) :
    snakeLoop rsb (c :: cs) = snakeLoop (c :: rsb) cs := by
  have e : snakeLoop rsb (c :: cs)
      = if isUpperA c then snakeLoop (lowerA c :: rsb) cs
        else if isLowerA c || isDigitA c then snakeLoop (c :: rsb) cs
        else match rsb with
          | [] => snakeLoop rsb cs
          | d :: _ =>
            if d = 95 then snakeLoop rsb cs else snakeLoop (95 :: rsb) cs := rfl
  rw [e, if_neg (by simp [hu]), if_pos hk]

lemma snakeLoop_other_nil {c : Nat} {cs : PyStr}
    (hu : isUpperA c = false) (hk : (isLowerA c || isDigitA c) = false) :
    snakeLoop [] (c :: cs) = snakeLoop [] cs := by
  have e : snakeLoop [] (c :: cs)
      = if isUpperA c then snakeLoop (lowerA c :: ([] : PyStr)) cs
        else if isLowerA c || isDigitA c then snakeLoop (c :: ([] : PyStr)) cs
        else snakeLoop ([] : PyStr) cs := rfl
  rw [e, if_neg (by simp [hu]), if_neg (by simp [hk])]

lemma snakeLoop_other_us {rs : PyStr} {c : Nat} {cs : PyStr}
    (hu : isUpperA c = false) (hk : (isLowerA c || isDigitA c) = false) :
    snakeLoop (95 :: rs) (c :: cs) = snakeLoop (95 :: rs) cs := by
  have e : snakeLoop (95 :: rs) (c :: cs)
      = if isUpperA c then snakeLoop (lowerA c :: 95 :: rs) cs
        else if isLowerA c || isDigitA c then snakeLoop (c :: 95 :: rs) cs
        else if (95 : Nat) = 95 then snakeLoop (95 :: rs) cs
        else snakeLoop (95 :: 95 :: rs) cs := rfl
  rw [e, if_neg (by simp [hu]), if_neg (by simp [hk]), if_pos rfl]

lemma snakeLoop_other_cons {d : Nat} {rs : PyStr} {c : Nat} {cs : PyStr}
    (hu : isUpperA c = false) (hk : (isLowerA c || isDigitA c) = false)
    (hd : ¬ d = 95) :
    snakeLoop (d :: rs) (c :: cs) = snakeLoop (95 :: d :: rs) cs := by
  have e : snakeLoop (d :: rs) (c :: cs)
      = if isUpperA c then snakeLoop (lowerA c :: d :: rs) cs
        else if isLowerA c || isDigitA c then snakeLoop (c :: d :: rs) cs
        else if d = 95 then snakeLoop (d :: rs) cs
        else snakeLoop (95 :: d :: rs) cs := rfl
  rw [e, if_neg (by simp [hu]), if_neg (by simp [hk]), if_neg hd]

lemma getLast?_cons_ne {x : Nat} {rsb : PyStr} (hx : x ≠ 95)
    (h : rsb.getLast? ≠ some 95) : (x :: rsb).getLast? ≠ some 95 := by
  cases rsb with
  | nil => simp [hx]
  | cons b t => simpa [List.getLast?_cons_cons] using h

lemma getLast?_cons_keep {x b : Nat} {t : PyStr}
    (h : (b :: t).getLast? ≠ some 95) : (x :: b :: t).getLast? ≠ some 95 := by
  simpa [List.getLast?_cons_cons] using h

lemma snakeLoop_inv (l : PyStr) : ∀ rsb : PyStr,
    (∀ c ∈ rsb, isSnakeChar c = true) →
    rsb.Chain' (fun a b => ¬(a = 95 ∧ b = 95)) →
    rsb.getLast? ≠ some 95 →
    ((∀ c ∈ snakeLoop rsb l, isSnakeChar c = true) ∧
      (snakeLoop rsb l).Chain' (fun a b => ¬(a = 95 ∧ b = 95)) ∧
      (snakeLoop rsb l).getLast? ≠ some 95) := by
  induction l with
  | nil => intro rsb h1 h2 h3; exact ⟨h1, h2, h3⟩
  | cons c cs ih =>
    intro rsb h1 h2 h3
    cases hu : isUpperA c with
    | true =>
      have hb := (isUpperA_iff c).mp hu
      rw [snakeLoop_upper hu]
      apply ih
      · intro d hd
        rcases List.mem_cons.mp hd with rfl | hd2
        · rw [isSnakeChar_iff]
          simp only [lowerA]
          omega
        · exact h1 d hd2
      · rw [List.chain'_cons']
        refine ⟨?_, h2⟩
        rintro y hy ⟨ha, hb2⟩
        simp only [lowerA] at ha
        omega
      · refine getLast?_cons_ne ?_ h3
        simp only [lowerA]
        omega
    | false =>
      cases hk : (isLowerA c || isDigitA c) with
      | true =>
        have hb := (keepChar_iff c).mp hk
        rw [snakeLoop_keep hu hk]
        apply ih
        · intro d hd
          rcases List.mem_cons.mp hd with rfl | hd2
          · rw [isSnakeChar_iff]
            tauto
          · exact h1 d hd2
        · rw [List.chain'_cons']
          refine ⟨?_, h2⟩
          rintro y hy ⟨ha, hb2⟩
          omega
        · refine getLast?_cons_ne ?_ h3
          omega
      | false =>
        cases hrsb : rsb with
        | nil =>
          rw [snakeLoop_other_nil hu hk]
          exact ih [] (by simp) List.chain'_nil (by simp)
        | cons d rs =>
          rw [hrsb] at h1 h2 h3
          by_cases hd : d = 95
          · subst hd
            rw [snakeLoop_other_us hu hk]
            exact ih _ h1 h2 h3
          · rw [snakeLoop_other_cons hu hk hd]
            apply ih
            · intro z hz
              rcases List.mem_cons.mp hz with rfl | hz2
              · rfl
              · exact h1 z hz2
            · rw [List.chain'_cons']
              refine ⟨?_, h2⟩
              rintro y hy ⟨ha, hb2⟩
              have hyd : d = y := by simpa using hy
              exact hd (hyd.trans hb2)
            · exact getLast?_cons_keep h3
    
lemma dropWhile_eq_self_of_head (p : Nat → Bool) {l : PyStr}
    (h : ∀ a, l.head? = some a → p a = false) : l.dropWhile p = l := by
  cases l with
  | nil => rfl
  | cons c t =>
    have hc : p c = false := h c rfl
    exact List.dropWhile_cons_of_neg (by simp [hc])

lemma pyStrip_eq_self {l : PyStr} (h : ∀ c ∈ l, isPySpace c = false) :
    pyStrip l = l := by
  unfold pyStrip
  have h1 : l.dropWhile isPySpace = l := by
    refine dropWhile_eq_self_of_head isPySpace ?_
    intro a ha
    cases l with
    | nil => cases ha
    | cons c t =>
      have : c = a := by simpa using ha
      exact h a (this ▸ List.mem_cons_self c t)
  rw [h1]
  have h2 : l.reverse.dropWhile isPySpace = l.reverse := by
    refine dropWhile_eq_self_of_head isPySpace ?_
    intro a ha
    rw [List.head?_reverse] at ha
    have ham : a ∈ l := by
      cases l with
      | nil => cases ha
      | cons c t => exact List.mem_of_mem_getLast? ha
    exact h a ham
  rw [h2, List.reverse_reverse]

lemma snakeLoop_fix (l : PyStr) : ∀ rsb : PyStr,
    (∀ c ∈ l, isSnakeChar c = true) →
    l.Chain' (fun a b => ¬(a = 95 ∧ b = 95)) →
    (l.head? = some 95 → ∃ d rs, rsb = d :: rs ∧ d ≠ 95) →
    snakeLoop rsb l = l.reverse ++ rsb := by
  induction l with
  | nil =>
    intro rsb _ _ _
    simp [snakeLoop]
  | cons c cs ih =>
    intro rsb hmem hch hH
    have hcs : isSnakeChar c = true := hmem c (List.mem_cons_self c cs)
    have hnu : isUpperA c = false := by
      cases hE : isUpperA c
      · rfl
      · exfalso
        have hx1 := (isSnakeChar_iff c).mp hcs
        have hx2 := (isUpperA_iff c).mp hE
        omega
    have hchtail : cs.Chain' (fun a b => ¬(a = 95 ∧ b = 95)) :=
      (List.chain'_cons'.mp hch).2
    have hmemtail : ∀ z ∈ cs, isSnakeChar z = true :=
      fun z hz => hmem z (List.mem_cons_of_mem c hz)
    by_cases h95 : c = 95
    · subst h95
      obtain ⟨d, rs, hrsb, hd⟩ := hH rfl
      subst hrsb
      have hk : (isLowerA (95 : Nat) || isDigitA 95) = false := rfl
      rw [snakeLoop_other_cons hnu hk hd]
      rw [ih (95 :: d :: rs) hmemtail hchtail ?hvac]
      case hvac =>
        intro hhead
        exfalso
        have hcond := (List.chain'_cons'.mp hch).1
        have h1 : (95 : Nat) ∈ cs.head? := by rw [hhead]; rfl
        exact hcond 95 h1 ⟨rfl, rfl⟩
      simp
    · have hk : (isLowerA c || isDigitA c) = true := by
        rw [keepChar_iff]
        have hx1 := (isSnakeChar_iff c).mp hcs
        rcases hx1 with hx | hx | hx
        · exact Or.inl hx
        · exact Or.inr hx
        · exact absurd hx h95
      rw [snakeLoop_keep hnu hk]
      rw [ih (c :: rsb) hmemtail hchtail (fun _ => ⟨c, rsb, rfl, h95⟩)]
      simp

lemma head_dropWhile_ff (p : Nat → Bool) (l : PyStr) {a : Nat}
    (h : (l.dropWhile p).head? = some a) : p a = false := by
  induction l with
  | nil => cases h
  | cons c t ih =>
    cases hp : p c with
    | true =>
      rw [List.dropWhile_cons_of_pos (by simp [hp])] at h
      exact ih h
    | false =>
      rw [List.dropWhile_cons_of_neg (by simp [hp])] at h
      have hca : c = a := by simpa using h
      exact hca ▸ hp

lemma to_snake_case_props (s : PyStr) :
    (∀ c ∈ to_snake_case s, isSnakeChar c = true) ∧
      (to_snake_case s).Chain' (fun a b => ¬(a = 95 ∧ b = 95)) ∧
      (to_snake_case s).head? ≠ some 95 ∧
      (to_snake_case s).getLast? ≠ some 95 := by
  obtain ⟨hm, hch, hlast⟩ :=
    snakeLoop_inv (pyStrip s) [] (by simp) List.chain'_nil (by simp)
  set r := snakeLoop [] (pyStrip s) with hr
  set q := r.dropWhile isUnderscore with hq
  have e : to_snake_case s = q.reverse := rfl
  have hsplit : r.takeWhile isUnderscore ++ q = r :=
    List.takeWhile_append_dropWhile isUnderscore r
  have hqmem : ∀ c ∈ q, isSnakeChar c = true := by
    intro c hc
    apply hm
    rw [← hsplit]
    exact List.mem_append_right _ hc
  have hqch : q.Chain' (fun a b => ¬(a = 95 ∧ b = 95)) := by
    rw [← hsplit] at hch
    exact hch.right_of_append
  have hqhead : q.head? ≠ some 95 := by
    intro hcon
    have h2 := head_dropWhile_ff isUnderscore r hcon
    simp [isUnderscore] at h2
  have hqlast : q.getLast? ≠ some 95 := by
    cases hqq : q with
    | nil => simp
    | cons a t =>
      rw [← hsplit, List.getLast?_append, hqq] at hlast
      cases hz : (a :: t).getLast? with
      | none => simp at hz
      | some z =>
        rw [hz, Option.or_some] at hlast
        simpa [hqq, hz] using hlast
  refine ⟨?_, ?_, ?_, ?_⟩
  · intro c hc
    rw [e, List.mem_reverse] at hc
    exact hqmem c hc
  · rw [e, List.chain'_reverse]
    refine hqch.imp ?_
    rintro a b hab ⟨ha, hb⟩
    exact hab ⟨hb, ha⟩
  · rw [e, List.head?_reverse]
    exact hqlast
  · rw [e, List.getLast?_reverse]
    exact hqhead

lemma to_snake_case_fix (l : PyStr)
    (hmem : ∀ c ∈ l, isSnakeChar c = true)
    (hch : l.Chain' (fun a b => ¬(a = 95 ∧ b = 95)))
    (hhead : l.head? ≠ some 95)
    (hlast : l.getLast? ≠ some 95) :
    to_snake_case l = l := by
  have hstrip : pyStrip l = l :=
    pyStrip_eq_self (fun c hc => isPySpace_false_of_snake (hmem c hc))
  have e : to_snake_case l
      = ((snakeLoop [] (pyStrip l)).dropWhile isUnderscore).reverse := rfl
  rw [e, hstrip]
  have hloop : snakeLoop [] l = l.reverse ++ [] :=
    snakeLoop_fix l [] hmem hch (fun hcon => absurd hcon hhead)
  rw [hloop]
  simp only [List.append_nil]
  have hdw : l.reverse.dropWhile isUnderscore = l.reverse := by
    refine dropWhile_eq_self_of_head isUnderscore ?_
    intro a ha
    rw [List.head?_reverse] at ha
    have hne : a ≠ 95 := fun hx => hlast (hx ▸ ha)
    simp [isUnderscore, hne]
  rw [hdw, List.reverse_reverse]

/-! ### Claim C1 -/

/-- C1 (amended): for a URL decomposing as `p ++ m ++ s` where `m` is the
text found by `re.search(r'\d+x\d+', url)` and `m` occurs exactly once in
the URL, `get_high_resolution_album_cover_url` replaces that occurrence with
`10000x10000` and leaves the rest of the URL unchanged.  (As originally
stated the claim is false: `re.sub(m.group(0), ...)` replaces every
occurrence of the matched text, not only the first — see the
counterexample.) -/
theorem C1_replaces_unique_token (url m p s : PyStr)
    (h1 : reSearch url = some m) (h2 : url = p ++ m ++ s)
    (h3 : numOccur m url = 1) :
    (get_high_resolution_album_cover_url url).fst
      = some (p ++ str "10000x10000" ++ s) := by
  have hm : m ≠ [] := reSearch_some_ne_nil url m h1
  have e : get_high_resolution_album_cover_url url
      = (some (replaceAll m (str "10000x10000") url), []) := by
    unfold get_high_resolution_album_cover_url
    rw [h1]
  rw [e]
  subst h2
  exact congrArg some (replaceAll_single m (str "10000x10000") p s hm h3)

/-- C1 witness: in `"a1x2b"` the token `1x2` occurs once and is replaced,
the surrounding characters untouched. -/
theorem C1_replaces_unique_token_witness :
    (get_high_resolution_album_cover_url (str "a1x2b")).fst
      = some (str "a" ++ str "10000x10000" ++ str "b") :=
  C1_replaces_unique_token (str "a1x2b") (str "1x2") (str "a") (str "b")
    rfl rfl rfl

/-- C1 counterexample: in `"ab1x1cd1x1"` the first matched token `1x1` also
occurs later; the code rewrites both occurrences, whereas the claim says the
later occurrence remains intact (which would give `"ab10000x10000cd1x1"`). -/
theorem C1_counterexample :
    (get_high_resolution_album_cover_url (str "ab1x1cd1x1")).fst
        = some (str "ab10000x10000cd10000x10000") ∧
      some (str "ab10000x10000cd10000x10000") ≠ some (str "ab10000x10000cd1x1") :=
  ⟨rfl, by decide⟩

/-! ### Claim C3 -/

/-- C3: for every URL containing no substring matching `\d+x\d+`,
`get_high_resolution_album_cover_url` returns `None`, emits exactly one
warning-level log message, and does not raise. -/
theorem C3_no_token_warns (url : PyStr) (h : ¬ containsResToken url) :
    get_high_resolution_album_cover_url url
      = (none, [⟨.warning, .noMatchInUrl url⟩]) := by
  cases hr : reSearch url with
  | none =>
    unfold get_high_resolution_album_cover_url
    rw [hr]
  | some m =>
    exfalso
    obtain ⟨htok, p, s, hdec⟩ := reSearch_sound url m hr
    exact h ⟨p, m, s, htok, hdec⟩

/-- C3 witness: a digit-free URL yields `None` plus one warning entry. -/
theorem C3_no_token_warns_witness :
    get_high_resolution_album_cover_url (str "https://example.com/cover.jpg")
      = (none, [⟨.warning, .noMatchInUrl (str "https://example.com/cover.jpg")⟩]) :=
  C3_no_token_warns (str "https://example.com/cover.jpg") (fun hc => by
    obtain ⟨p, m, s, htok, hdec⟩ := hc
    have h2 := reSearch_complete p m s htok
    rw [← hdec] at h2
    have h3 : reSearch (str "https://example.com/cover.jpg") = none := rfl
    rw [h3] at h2
    cases h2)

/-! ### Claims C4 and C5 -/

/-- C4: `to_snake_case` is idempotent: sanitizing an already-sanitized
string returns it unchanged. -/
theorem C4_to_snake_case_idempotent (s : PyStr) :
    to_snake_case (to_snake_case s) = to_snake_case s := by
  obtain ⟨h1, h2, h3, h4⟩ := to_snake_case_props s
  exact to_snake_case_fix (to_snake_case s) h1 h2 h3 h4

/-- C5: for every input, the output of `to_snake_case` has no two
consecutive underscores (codepoint 95) and neither begins nor ends with an
underscore. -/
theorem C5_sanitizer_shape (s : PyStr) :
    (∀ i : Nat, ¬((to_snake_case s)[i]? = some 95 ∧
      (to_snake_case s)[i + 1]? = some 95)) ∧
    (to_snake_case s).head? ≠ some 95 ∧
    (to_snake_case s).getLast? ≠ some 95 := by
  obtain ⟨_, h2, h3, h4⟩ := to_snake_case_props s
  refine ⟨?_, h3, h4⟩
  intro i hcon
  obtain ⟨ha, hb⟩ := hcon
  obtain ⟨hlt2, hget2⟩ := List.getElem?_eq_some_iff.mp ha
  obtain ⟨hlt, hget⟩ := List.getElem?_eq_some_iff.mp hb
  have hR := (List.chain'_iff_get.mp h2) i (by omega)
  apply hR
  constructor
  · rw [List.get_eq_getElem]
    exact hget2
  · rw [List.get_eq_getElem]
    exact hget

/-- C5 witness: evaluated on the concrete input `"-Album Name-"`, the
sanitizer output has no underscore at either end. -/
theorem C5_sanitizer_shape_witness :
    (to_snake_case (str "-Album Name-")).head? ≠ some 95 ∧
    (to_snake_case (str "-Album Name-")).getLast? ≠ some 95 :=
  ⟨(C5_sanitizer_shape (str "-Album Name-")).2.1,
   (C5_sanitizer_shape (str "-Album Name-")).2.2⟩

/-! ### Claim C6 -/

lemma natToDec_small {d : Nat} (h : d ≤ 9) : natToDec d = [48 + d] := by
  unfold natToDec
  have e : natToDecF (d + 1) d
      = if d < 10 then [48 + d] else natToDecF d (d / 10) ++ [48 + d % 10] := rfl
  rw [e, if_pos (by omega)]

/-- C6: `format_cover_size` renders exact multiples of 1000 as `"Nk"`,
exact multiples of 100 that are not multiples of 1000 as `"N.Nk"` (integer
part, a dot, the tenths digit), and every other number as its plain decimal
string; in particular `2000 ↦ "2k"`, `1500 ↦ "1.5k"`, `1234 ↦ "1234"`. -/
theorem C6_format_cover_size :
    format_cover_size 2000 = str "2k" ∧
    format_cover_size 1500 = str "1.5k" ∧
    format_cover_size 1234 = str "1234" ∧
    (∀ q : Nat, format_cover_size (1000 * q) = natToDec q ++ [107]) ∧
    (∀ q d : Nat, 1 ≤ d → d ≤ 9 →
      format_cover_size (1000 * q + 100 * d) = natToDec q ++ [46, 48 + d, 107]) ∧
    (∀ n : Nat, n % 100 ≠ 0 → format_cover_size n = natToDec n) := by
  refine ⟨by decide, by decide, by decide, ?_, ?_, ?_⟩
  · intro q
    unfold format_cover_size
    rw [if_pos (by omega : 1000 * q % 1000 = 0)]
    rw [show 1000 * q / 1000 = q by omega]
  · intro q d hd1 hd9
    unfold format_cover_size
    rw [if_neg (by omega : ¬ (1000 * q + 100 * d) % 1000 = 0)]
    rw [if_pos (by omega : (1000 * q + 100 * d) % 100 = 0)]
    rw [show (1000 * q + 100 * d) / 1000 = q by omega]
    rw [show (1000 * q + 100 * d) % 1000 / 100 = d by omega]
    rw [natToDec_small hd9]
    simp
  · intro n hn
    unfold format_cover_size
    rw [if_neg (by omega : ¬ n % 1000 = 0), if_neg hn]

/-- C6 witness: `format_cover_size (1000·7 + 100·3) = "7.3k"`. -/
theorem C6_format_cover_size_witness :
    format_cover_size (1000 * 7 + 100 * 3) = natToDec 7 ++ [46, 48 + 3, 107] :=
  C6_format_cover_size.2.2.2.2.1 7 3 (by decide) (by decide)

/-! ### Claim C9 -/

/-- C9: when the image GET returns a non-200 status, `download_jpeg_image`
writes no file (the filesystem is returned unchanged), emits an error-level
log entry, and returns normally; on a 200 status it writes the response
bytes verbatim to the destination, truncating any existing file, and leaves
every other path unchanged. -/
theorem C9_download_jpeg_image (http : Http) (u path : PyStr) (fs : FS)
    (resp : HttpResponse) (hr : http u = some resp) :
    (resp.status ≠ 200 →
      download_jpeg_image http (some u) path fs
        = (.ok fs, [⟨.error, .failedImageDownload (some u)⟩])) ∧
    (resp.status = 200 →
      ∃ fs2, download_jpeg_image http (some u) path fs = (.ok fs2, []) ∧
        fs2 path = some resp.body ∧ ∀ q, q ≠ path → fs2 q = fs q) := by
  have e : download_jpeg_image http (some u) path fs
      = if resp.status ≠ 200
        then ((.ok fs : Except PyErr FS),
          [(⟨.error, .failedImageDownload (some u)⟩ : LogEntry)])
        else (.ok (fs.update path resp.body), []) := by
    simp only [download_jpeg_image, requests_get, hr]
  rw [e]
  constructor
  · intro hs
    rw [if_pos hs]
  · intro hs
    refine ⟨fs.update path resp.body, ?_, ?_, ?_⟩
    · rw [if_neg (fun hc => hc hs)]
    · unfold FS.update
      rw [if_pos rfl]
    · intro q hq
      unfold FS.update
      rw [if_neg hq]

/-- C9 witness: a transport returning status 404 leads to an unchanged
filesystem plus one error log entry. -/
theorem C9_download_jpeg_image_witness :
    download_jpeg_image (fun _ => some ⟨404, []⟩) (some (str "u")) (str "p")
        (fun _ => none)
      = (.ok (fun _ => none),
          [⟨.error, .failedImageDownload (some (str "u"))⟩]) :=
  (C9_download_jpeg_image (fun _ => some ⟨404, []⟩) (str "u") (str "p")
    (fun _ => none) ⟨404, []⟩ rfl).1 (by decide)

/-! ### Claim C7 -/

/-- C7: when the decoded image is square, `square_cover_image` leaves the
file system untouched (no save occurs) and only logs; when width differs
from height it saves, over the same path, the encoding of the image resized
to `side × side` with `side = max width height`, leaving every other path
unchanged. -/
theorem C7_square_cover_image (decode : PyStr → Except PyErr PILImage)
    (encode : PILImage → PyStr) (path : PyStr) (fs : FS) (bytes : PyStr)
    (img : PILImage) (h1 : fs path = some bytes) (h2 : decode bytes = .ok img) :
    (img.width = img.height →
      square_cover_image decode encode path fs
        = (.ok fs, [⟨.info, .coverDimensions img.width img.height⟩,
            ⟨.info, .coverSize (format_cover_size (max img.width img.height))⟩])) ∧
    (img.width ≠ img.height →
      ∃ fs2, square_cover_image decode encode path fs
          = (.ok fs2, [⟨.info, .coverDimensions img.width img.height⟩,
              ⟨.info, .coverSize (format_cover_size (max img.width img.height))⟩,
              ⟨.info, .imageResized (max img.width img.height)⟩]) ∧
        fs2 path
          = some (encode ⟨max img.width img.height, max img.width img.height⟩) ∧
        ∀ q, q ≠ path → fs2 q = fs q) := by
  have e : square_cover_image decode encode path fs
      = if img.width = img.height
        then ((.ok fs : Except PyErr FS),
          [(⟨.info, .coverDimensions img.width img.height⟩ : LogEntry),
           ⟨.info, .coverSize (format_cover_size (max img.width img.height))⟩])
        else (.ok (fs.update path
            (encode ⟨max img.width img.height, max img.width img.height⟩)),
          [(⟨.info, .coverDimensions img.width img.height⟩ : LogEntry),
           ⟨.info, .coverSize (format_cover_size (max img.width img.height))⟩]
          ++ [⟨.info, .imageResized (max img.width img.height)⟩]) := by
    simp only [square_cover_image, h1, h2]
  rw [e]
  constructor
  · intro hs
    rw [if_pos hs]
  · intro hs
    refine ⟨fs.update path
      (encode ⟨max img.width img.height, max img.width img.height⟩),
      ?_, ?_, ?_⟩
    · rw [if_neg hs]
      rfl
    · unfold FS.update
      rw [if_pos rfl]
    · intro q hq
      unfold FS.update
      rw [if_neg hq]

/-- C7 witness: a black-box codec decoding every file to an 800×600 image
makes `square_cover_image` rewrite the file with an 800×800 encoding. -/
theorem C7_square_cover_image_witness :
    ∃ fs2, square_cover_image (fun _ => .ok ⟨800, 600⟩) (fun _ => [])
        (str "p") (fun _ => some [])
        = (.ok fs2, [⟨.info, .coverDimensions 800 600⟩,
            ⟨.info, .coverSize (format_cover_size (max 800 600))⟩,
            ⟨.info, .imageResized (max 800 600)⟩]) ∧
      fs2 (str "p") = some ((fun _ => ([] : PyStr)) (⟨max 800 600, max 800 600⟩ : PILImage)) ∧
      ∀ q, q ≠ str "p" → fs2 q = (fun _ => some ([] : PyStr)) q :=
  (C7_square_cover_image (fun _ => .ok ⟨800, 600⟩) (fun _ => []) (str "p")
    (fun _ => some []) [] ⟨800, 600⟩ rfl rfl).2 (by decide)

/-! ### Claim C8 -/

lemma buildTracks_ok : ∀ (ts : List Json) (i : Nat),
    (∀ t ∈ ts, ∃ v, subscrKey t (str "name") = Except.ok v) →
    ∃ l, buildTracks i ts = .ok l ∧ l.length = ts.length ∧
      l.map TrackInfo.track_number = List.range' (i + 1) ts.length ∧
      l.map (fun tr => (Except.ok tr.track_name : Except PyErr Json))
        = ts.map (fun t => subscrKey t (str "name")) := by
  intro ts
  induction ts with
  | nil =>
    intro i _
    exact ⟨[], rfl, rfl, rfl, rfl⟩
  | cons t rest ih =>
    intro i h
    obtain ⟨v, hv⟩ := h t (List.mem_cons_self t rest)
    obtain ⟨l, hl, hlen, hnum, hnames⟩ :=
      ih (i + 1) (fun t2 ht2 => h t2 (List.mem_cons_of_mem t ht2))
    refine ⟨⟨i + 1, v⟩ :: l, ?_, ?_, ?_, ?_⟩
    · have e : buildTracks i (t :: rest)
          = match subscrKey t (str "name") with
            | .error e => .error e
            | .ok nm =>
              match buildTracks (i + 1) rest with
              | .error e => .error e
              | .ok l => .ok (⟨i + 1, nm⟩ :: l) := rfl
      rw [e, hv, hl]
    · simp [hlen]
    · simp only [List.map_cons, List.length_cons, List.range'_succ]
      rw [hnum]
    · simp only [List.map_cons, hnames, hv]

/-- C8: for a page whose structured-data block decodes to an album whose
`tracks` entry is a list of `n` track objects each carrying a `name` (and
whose other consulted fields are extractable), `parse_album_info` succeeds
with `number_of_tracks = n` and tracks numbered `1..n` whose names follow
the source list in order. -/
theorem C8_parse_album_info (soup : Soup) (data : Json) (ts : List Json)
    (hS : soup.schemaAlbumJson = some (some data))
    (hT : subscrKey data (str "tracks") = .ok (Json.arr ts))
    (hN : ∀ t ∈ ts, ∃ v, subscrKey t (str "name") = Except.ok v)
    (hB : ∃ b a, subscrKey data (str "byArtist") = .ok b ∧
      subscrKey b (str "name") = .ok a)
    (hA : ∃ v, subscrKey data (str "name") = .ok v)
    (hD : ∃ v, subscrKey data (str "datePublished") = .ok v)
    (hG : ∃ g v, subscrKey data (str "genre") = .ok g ∧ subscrIdx g 0 = .ok v) :
    ∃ album : AlbumInfo, parse_album_info (some soup) = .ok album ∧
      album.number_of_tracks = ts.length ∧
      album.tracks.map TrackInfo.track_number = List.range' 1 ts.length ∧
      album.tracks.map (fun tr => (Except.ok tr.track_name : Except PyErr Json))
        = ts.map (fun t => subscrKey t (str "name")) := by
  obtain ⟨b, a, hb, ha⟩ := hB
  obtain ⟨av, hav⟩ := hA
  obtain ⟨dv, hdv⟩ := hD
  obtain ⟨g, gv, hg, hgv⟩ := hG
  obtain ⟨l, hl, hlen, hnum, hnames⟩ := buildTracks_ok ts 0 hN
  refine ⟨⟨a, av, dv, gv, l⟩, ?_, ?_, ?_, ?_⟩
  · simp only [parse_album_info, hS, hT, iterElems, hl, hb, ha, hav, hdv,
      hg, hgv]
  · simpa [AlbumInfo.number_of_tracks] using hlen
  · simpa using hnum
  · simpa using hnames

/-- C8 witness: the concrete three-track block yields an `AlbumInfo` with
three tracks numbered 1, 2, 3 whose names follow the source order. -/
theorem C8_parse_album_info_witness :
    ∃ album : AlbumInfo, parse_album_info (some testSoup) = .ok album ∧
      album.number_of_tracks = 3 ∧
      album.tracks.map TrackInfo.track_number = List.range' 1 3 ∧
      album.tracks.map (fun tr => (Except.ok tr.track_name : Except PyErr Json))
        = testTracks.map (fun t => subscrKey t (str "name")) :=
  C8_parse_album_info testSoup testAlbumData testTracks rfl rfl
    (by
      intro t ht
      simp only [testTracks, List.mem_cons, List.not_mem_nil, or_false] at ht
      rcases ht with rfl | rfl | rfl
      · exact ⟨_, rfl⟩
      · exact ⟨_, rfl⟩
      · exact ⟨_, rfl⟩)
    ⟨.obj [(str "name", .jstr (str "Test Artist"))], .jstr (str "Test Artist"),
      rfl, rfl⟩
    ⟨.jstr (str "Test Album"), rfl⟩
    ⟨.jstr (str "2020-01-01"), rfl⟩
    ⟨.arr [.jstr (str "Rock")], .jstr (str "Rock"), rfl, rfl⟩

/-! ### Claim C2 -/

lemma download_jpeg_image_non200 (http : Http) (u path : PyStr) (fs : FS)
    (resp : HttpResponse) (hr : http u = some resp) (hs : resp.status ≠ 200) :
    download_jpeg_image http (some u) path fs
      = (.ok fs, [⟨.error, .failedImageDownload (some u)⟩]) := by
  have e : download_jpeg_image http (some u) path fs
      = if resp.status ≠ 200
        then ((.ok fs : Except PyErr FS),
          [(⟨.error, .failedImageDownload (some u)⟩ : LogEntry)])
        else (.ok (fs.update path resp.body), []) := by
    simp only [download_jpeg_image, requests_get, hr]
  rw [e, if_pos hs]

lemma get_html_soup_non200 (http : Http) (htmlParse : PyStr → Soup)
    (url : PyStr) (resp : HttpResponse) (hr : http url = some resp)
    (hs : resp.status ≠ 200) :
    get_html_soup http htmlParse url
      = (.ok none, [⟨.error, .failedExtractImageUrl url⟩]) := by
  have e : get_html_soup http htmlParse url
      = if resp.status ≠ 200
        then ((.ok none : Except PyErr (Option Soup)),
          [(⟨.error, .failedExtractImageUrl url⟩ : LogEntry)])
        else (.ok (some (htmlParse resp.body)), []) := by
    simp only [get_html_soup, requests_get, hr]
  rw [e, if_pos hs]

/-- C2 (amended): a non-200 status on the image GET is logged and
short-circuits only that step (`download_jpeg_image` returns normally with
the filesystem unchanged); but a non-200 status on the initial page fetch,
though logged by `get_html_soup`, does abort the whole run: `main` passes
the `None` soup to `parse_album_info`, which raises an unhandled
`AttributeError`.  (The claim as stated — that the run does not abort — is
refuted by the counterexample.) -/
theorem C2_transport_failure_behaviour :
    (∀ (http : Http) (htmlParse : PyStr → Soup)
        (decode : PyStr → Except PyErr PILImage) (encode : PILImage → PyStr)
        (url : PyStr) (fs : FS) (resp : HttpResponse),
      http url = some resp → resp.status ≠ 200 →
      mainModel http htmlParse decode encode url fs
        = (.error .attributeError,
            [⟨.error, .failedExtractImageUrl url⟩])) ∧
    (∀ (http : Http) (u path : PyStr) (fs : FS) (resp : HttpResponse),
      http u = some resp → resp.status ≠ 200 →
      download_jpeg_image http (some u) path fs
        = (.ok fs, [⟨.error, .failedImageDownload (some u)⟩])) := by
  constructor
  · intro http htmlParse decode encode url fs resp h1 h2
    have hsoup := get_html_soup_non200 http htmlParse url resp h1 h2
    simp only [mainModel, hsoup, parse_album_info]
  · intro http u path fs resp h1 h2
    exact download_jpeg_image_non200 http u path fs resp h1 h2

/-- C2 counterexample: with a transport answering 404 to every GET, the
whole run aborts with an (unhandled) `AttributeError` raised inside
`parse_album_info`, contradicting the claim that a non-200 on the initial
page fetch does not abort the run. -/
theorem C2_counterexample :
    mainModel (fun _ => some ⟨404, []⟩) (fun _ => ⟨none, none⟩)
        (fun _ => .error .valueError) (fun _ => []) (str "http://x")
        (fun _ => none)
      = (.error .attributeError,
          [⟨.error, .failedExtractImageUrl (str "http://x")⟩]) := rfl

/-- C2 witness: the amended behaviour at a concrete 500-status transport. -/
theorem C2_transport_failure_behaviour_witness :
    mainModel (fun _ => some ⟨500, []⟩) (fun _ => ⟨none, none⟩)
        (fun _ => .error .valueError) (fun _ => []) (str "u") (fun _ => none)
      = (.error .attributeError, [⟨.error, .failedExtractImageUrl (str "u")⟩]) :=
  C2_transport_failure_behaviour.1 (fun _ => some ⟨500, []⟩)
    (fun _ => ⟨none, none⟩) (fun _ => .error .valueError) (fun _ => [])
    (str "u") (fun _ => none) ⟨500, []⟩ rfl (by decide)

/-! ### Claim C10 -/

lemma pySplit_cons_sep (sep : Nat) (rest : PyStr) :
    ∃ t, pySplit sep (sep :: rest) = [] :: t := by
  have e : pySplit sep (sep :: rest)
      = match pySplit sep rest with
        | [] => [[]]
        | h :: t => if sep = sep then [] :: h :: t else (sep :: h) :: t := rfl
  cases hp : pySplit sep rest with
  | nil =>
    rw [e, hp]
    exact ⟨[], rfl⟩
  | cons h t =>
    rw [e, hp]
    exact ⟨h :: t, if_pos rfl⟩

/-- C10: when the last comma-separated candidate of a `srcset` value begins
with a space (the usual `"url1 w1, url2 w2"` formatting), the URL
`download_cover_art` extracts is the empty string, the Resolution Upgrader
rejects it (no `\d+x\d+` match, logged warning), and the download step is
invoked with a null (`None`) image URL. -/
theorem C10_srcset_space_empty_url (srcset rest : PyStr)
    (h : (pySplit 44 srcset).getLast? = some (32 :: rest)) :
    extracted_image_url srcset = [] ∧
    (get_high_resolution_album_cover_url []).fst = none ∧
    (∀ (http : Http) (soup : Soup) (div : ArtworkDiv) (src : JpegSource)
        (path : PyStr) (fs : FS),
      soup.artworkDiv = some div → div.jpegSource = some src →
      src.srcset = some srcset →
      download_cover_art http (some soup) path fs
        = ((download_jpeg_image http none path fs).fst,
            ⟨.warning, .noMatchInUrl []⟩ :: ⟨.info, .downloadingCover none⟩ ::
              (download_jpeg_image http none path fs).snd)) := by
  have hgl : (pySplit 44 srcset).getLastD [] = 32 :: rest := by
    rw [List.getLastD_eq_getLast?, h]
    rfl
  obtain ⟨t2, ht2⟩ := pySplit_cons_sep 32 rest
  have hurl : extracted_image_url srcset = [] := by
    unfold extracted_image_url
    rw [hgl, ht2]
    rfl
  have hg : get_high_resolution_album_cover_url []
      = (none, [⟨.warning, .noMatchInUrl []⟩]) := rfl
  refine ⟨hurl, rfl, ?_⟩
  intro http soup div src path fs hA hJ hS
  simp only [download_cover_art, hA, hJ, hS, hurl, hg]
  rfl

/-- C10 witness: a two-candidate `srcset` in the common comma-space format
yields the empty extracted URL. -/
theorem C10_srcset_space_empty_url_witness :
    extracted_image_url (str "http://a/1x1.jpg 1w, http://b/2x2.jpg 2w") = [] :=
  (C10_srcset_space_empty_url (str "http://a/1x1.jpg 1w, http://b/2x2.jpg 2w")
    (str "http://b/2x2.jpg 2w") rfl).1

end Metamusic

